import Mathlib

/-
  Verification development for the batch encryption pipeline
  (scripts/batch_encrypt.py).

  The embedding models the pure decision logic of the pipeline:
  shell-glob matching (fnmatch), pathlib suffix arithmetic, the
  three-tier rule resolution (exclusion, copy-only, transform),
  discovery (find_files), and per-file processing (process_files),
  with the external vcs tool and the filesystem copy operations
  abstracted as per-file outcome oracles.

  Paths are modelled as lists of components relative to the source
  root (resp. the target root); the filesystem is modelled as the
  set of files present, represented as duplicate-free lists.
-/

namespace BatchEncrypt

/-- Tokens of a shell-glob pattern, mirroring the constructs handled by
fnmatch.translate: literal characters, the single-character wildcard,
the star wildcard, and bracket character classes. -/
inductive GTok where
  | lit (c : Char)
  | anyChar
  | star
  | cls (neg : Bool) (body : List Char)
deriving DecidableEq

/-- Scan the body of a bracket class up to the closing bracket; returns
the body and the remainder of the pattern, or none if the class is
unterminated (in which case fnmatch treats the opening bracket literally). -/
def scanClass : List Char → Option (List Char × List Char)
  | [] => none
  | ']' :: rest => some ([], rest)
  | c :: rest =>
    match scanClass rest with
    | some (body, rest2) => some (c :: body, rest2)
    | none => none

/-- Body of splitClass once the optional negation mark has been consumed:
a closing bracket in first position is a literal member of the class. -/
def splitClassCore (neg : Bool) (p : List Char) : Option (Bool × List Char × List Char) :=
  match p with
  | ']' :: t => (scanClass t).map (fun br => (neg, ']' :: br.1, br.2))
  | _ => (scanClass p).map (fun br => (neg, br.1, br.2))

/-- Split a bracket class following its opening bracket into negation flag,
class body and remaining pattern, following fnmatch.translate. -/
def splitClass : List Char → Option (Bool × List Char × List Char)
  | '!' :: p1 => splitClassCore true p1
  | p => splitClassCore false p

/-- Membership of a character in a bracket class body: a range item a-b
tests the character against the codepoint interval, any other item is a
literal member. -/
def classMem (c : Char) : List Char → Bool
  | a :: '-' :: b :: rest => (decide (a ≤ c) && decide (c ≤ b)) || classMem c rest
  | a :: rest => (a == c) || classMem c rest
  | [] => false

/-- Tokenize a glob pattern; the fuel argument (instantiated with the
pattern length, which always suffices) makes the recursion structural. -/
def lexPatF : Nat → List Char → List GTok
  | 0, _ => []
  | _ + 1, [] => []
  | fuel + 1, '*' :: ps => GTok.star :: lexPatF fuel ps
  | fuel + 1, '?' :: ps => GTok.anyChar :: lexPatF fuel ps
  | fuel + 1, '[' :: ps =>
    match splitClass ps with
    | some (neg, body, rest) => GTok.cls neg body :: lexPatF fuel rest
    | none => GTok.lit '[' :: lexPatF fuel ps
  | fuel + 1, c :: ps => GTok.lit c :: lexPatF fuel ps

/-- Tokenized form of a glob pattern. -/
def lexPat (p : List Char) : List GTok := lexPatF p.length p

/-- Match a tokenized glob pattern against a character string; the star
token tries every suffix of the remaining input. -/
def gmTok : List GTok → List Char → Bool
  | [], s => s.isEmpty
  | GTok.star :: ts, s => s.tails.any (fun t => gmTok ts t)
  | GTok.anyChar :: ts, s =>
    match s with
    | [] => false
    | _ :: cs => gmTok ts cs
  | GTok.lit c :: ts, s =>
    match s with
    | [] => false
    | d :: cs => (c == d) && gmTok ts cs
  | GTok.cls neg body :: ts, s =>
    match s with
    | [] => false
    | d :: cs => (classMem d body != neg) && gmTok ts cs

/-- Shell-glob match of a name against a pattern, as fnmatch does
(case-sensitive on posix). Argument order follows fnmatch(name, pattern). -/
def fnmatch (name pat : String) : Bool := gmTok (lexPat pat.data) name.data

/-- A path relative to the source root (or target root), as its list of
components; the last component is the entry name. -/
abbrev RelPath := List String

/-- The final component of a path, as pathlib's name attribute. -/
def fileName (f : RelPath) : String := f.getLastD ""

/-- The path rendered as a relative string, as str() of a relative
pathlib path: components joined by the separator. -/
def relStr (f : RelPath) : String := String.intercalate "/" f

/-- Helper for pySuffix: walk the reversed name accumulating the
characters after the last dot; returns the suffix if the last dot is
neither the first nor the last character of the name. -/
def findSuffixRev : List Char → List Char → Option (List Char)
  | _, [] => none
  | acc, c :: rest =>
    if c = '.' then (if acc = [] ∨ rest = [] then none else some ('.' :: acc))
    else findSuffixRev (c :: acc) rest

/-- Extension of a name at the character-list level, as pathlib's suffix:
the segment from the last dot, provided that dot is neither first nor
last in the name; otherwise empty. -/
def pySuffixL (name : List Char) : List Char :=
  match findSuffixRev [] name.reverse with
  | some s => s
  | none => []

/-- Extension of a name, as pathlib's suffix attribute. -/
def pySuffix (s : String) : String := ⟨pySuffixL s.data⟩

/-- Replace the extension of a name, as pathlib's with_suffix applied to
the name component: drop the old suffix if any, then append the new one. -/
def withSuffixL (name s2 : List Char) : List Char :=
  let old := pySuffixL name
  if old = [] then name ++ s2 else name.take (name.length - old.length) ++ s2

/-- Replace the extension of a name, string level. -/
def withSuffixName (n s2 : String) : String := ⟨withSuffixL n.data s2.data⟩

/-- Replace the extension of a path's final component, as with_suffix on
a path: same directory, new name. -/
def withSuffixPath (f : RelPath) (s2 : String) : RelPath :=
  f.dropLast ++ [withSuffixName (fileName f) s2]

/-- The fixed recognized-extension list of the tool
(supported_extensions in the source). -/
def supportedExtensions : List String := [".v", ".vh", ".sv", ".svh", ".lst"]

/-- The fixed set of extensions copied without encryption by default
(default_copy_only_extensions in the source). -/
def defaultCopyOnlyExtensions : List String := [".lst"]

/-- The four user-supplied pattern collections of a run
(exclude_files, exclude_dirs, copy_only_files, copy_only_dirs). -/
structure Config where
  excludeFiles : List String
  excludeDirs : List String
  copyOnlyFiles : List String
  copyOnlyDirs : List String
deriving DecidableEq

/-- The proper ancestor directories of a path strictly below the source
root, immediate parent first, walking outward; the source root itself
(the empty relative path) is not included. This is the chain that
file_path.parents yields before the loop in find_files breaks at
source_dir. -/
def ancestors (ds : List String) : List (List String) := (ds.inits.drop 1).reverse

/-- The ancestor chain of a file: proper ancestors of its directory part. -/
def ancestorChain (f : RelPath) : List (List String) := ancestors f.dropLast

/-- Check of a file name against the exclusion patterns
(_should_exclude_file): first matching pattern wins and fixes the reason. -/
def shouldExcludeFile (cfg : Config) (f : RelPath) : Option String :=
  cfg.excludeFiles.findSome? fun pat =>
    if fnmatch (fileName f) pat then
      some ("Matched file exclusion pattern \x27" ++ pat ++ "\x27")
    else none

/-- Check of a directory against the exclusion patterns
(_should_exclude_dir): each pattern is tried against the directory name
and its relative path string; first matching pattern fixes the reason. -/
def shouldExcludeDir (cfg : Config) (d : RelPath) : Option String :=
  cfg.excludeDirs.findSome? fun pat =>
    if fnmatch (fileName d) pat || fnmatch (relStr d) pat then
      some ("Matched directory exclusion pattern \x27" ++ pat ++ "\x27")
    else none

/-- The tier-1 exclusion check applied per file by find_files: first the
ancestor-directory walk (short-circuiting on the first matching
ancestor), then the file-pattern check. Returns the recorded reason. -/
def fileExclusion (cfg : Config) (f : RelPath) : Option String :=
  match (ancestorChain f).findSome? (shouldExcludeDir cfg) with
  | some r => some r
  | none => shouldExcludeFile cfg f

/-- Check of a file against the copy-only rules (_should_copy_only_file):
default copy-only extension first, then the copy-only file patterns. -/
def shouldCopyOnlyFile (cfg : Config) (f : RelPath) : Bool :=
  defaultCopyOnlyExtensions.contains (pySuffix (fileName f)) ||
    cfg.copyOnlyFiles.any (fun pat => fnmatch (fileName f) pat)

/-- Check of a directory against the copy-only directory patterns
(_should_copy_only_dir): pattern against name or relative path string. -/
def shouldCopyOnlyDir (cfg : Config) (d : RelPath) : Bool :=
  cfg.copyOnlyDirs.any (fun pat => fnmatch (fileName d) pat || fnmatch (relStr d) pat)

/-- The tier-2 copy-only decision applied per file by process_files: a
copy-only ancestor directory, or the file-level copy-only check. -/
def shouldCopyOnly (cfg : Config) (f : RelPath) : Bool :=
  (ancestorChain f).any (shouldCopyOnlyDir cfg) || shouldCopyOnlyFile cfg f

/-- The disposition a file ends up with across the two stages of the
pipeline: tier-1 exclusion during discovery, tier-2 copy-only versus
transform during processing. -/
inductive Disposition where
  | excluded
  | copyOnly
  | transform
deriving DecidableEq

/-- The disposition of a file under a configuration: the composition of
find_files exclusion filtering with the process_files branch. -/
def dispositionOf (cfg : Config) (f : RelPath) : Disposition :=
  match fileExclusion cfg f with
  | some _ => Disposition.excluded
  | none => if shouldCopyOnly cfg f then Disposition.copyOnly else Disposition.transform

/-- The five run counters (the stats dictionary of the source). -/
structure Stats where
  total_found : Nat
  success : Nat
  failed : Nat
  skipped : Nat
  copied_only : Nat
deriving DecidableEq

/-- Lexicographic comparison of relative paths, component by component
with the string order: how sorted() orders pathlib paths (they compare
by their parts tuple). -/
def pathLe (a b : RelPath) : Bool :=
  match a, b with
  | [], _ => true
  | _ :: _, [] => false
  | x :: xs, y :: ys => if x < y then true else if y < x then false else pathLe xs ys

/-- The path order as a relation, for sortedness statements. -/
def pLe (a b : RelPath) : Prop := pathLe a b = true

instance : DecidableRel pLe := fun _ _ => inferInstanceAs (Decidable (_ = true))

/-- Whether a file name matches the recursive glob pattern for one
recognized extension: source_dir.glob matches the final component
against star followed by the extension. -/
def extMatches (f : RelPath) (ext : String) : Bool := fnmatch (fileName f) ("*" ++ ext)

/-- Whether a file matches any recognized-extension glob at all. -/
def recognized (f : RelPath) : Bool := supportedExtensions.any (extMatches f)

/-- One step of the discovery filter (the per-file body of the loop in
find_files): an excluded file contributes one skip record with its
relative path string and the reason, a surviving file joins the result. -/
def discoverStep (cfg : Config) (acc : List RelPath × List (String × String))
    (f : RelPath) : List RelPath × List (String × String) :=
  match fileExclusion cfg f with
  | some r => (acc.1, acc.2 ++ [(relStr f, r)])
  | none => (acc.1 ++ [f], acc.2)

/-- The output of find_files: surviving files, skip records, and the two
statistics counters it sets. -/
structure DiscoveryResult where
  found : List RelPath
  skippedRecs : List (String × String)
  totalFound : Nat
  skippedCount : Nat
deriving DecidableEq

/-- The nested discovery loop of find_files: for each recognized
extension glob the tree, and filter each globbed file through tier-1
exclusion, accumulating survivors and skip records. -/
def discoverScan (cfg : Config) (tree : List RelPath) :
    List RelPath × List (String × String) :=
  supportedExtensions.foldl
    (fun acc ext => (tree.filter (fun f => extMatches f ext)).foldl (discoverStep cfg) acc)
    ([], [])

/-- Discovery (find_files): run the scan, then deduplicate the surviving
set and sort it; total_found and skipped are set from this pass. -/
def findFiles (cfg : Config) (tree : List RelPath) : DiscoveryResult :=
  { found := List.insertionSort pLe (discoverScan cfg tree).1.dedup,
    skippedRecs := (discoverScan cfg tree).2,
    totalFound := (List.insertionSort pLe (discoverScan cfg tree).1.dedup).length,
    skippedCount := (discoverScan cfg tree).2.length }

/-- Result of the external tool invocation for one file, as observed by
encrypt_file: a completed subprocess with its exit status and whether
the expected output artifact is then on disk, a timeout, a missing tool
binary, or any other exception. -/
inductive ToolResult where
  | completed (exitStatus : Int) (artifactOnDisk : Bool)
  | timeoutExpired
  | toolNotFound
  | otherExc
deriving DecidableEq

/-- The per-file environment behaviour a processing step observes: the
tool invocation result, and whether each of the two copy blocks (the
encrypted-artifact copy and the plain copy) runs without an exception. -/
structure FileOutcome where
  tool : ToolResult
  copyEncOk : Bool
  copyOrigOk : Bool
deriving DecidableEq

/-- The expected output artifact of the tool for a file: same directory,
name with a p appended to the extension
(file_path.with_suffix(file_path.suffix + p)). -/
def encArtifact (f : RelPath) : RelPath :=
  withSuffixPath f (pySuffix (fileName f) ++ "p")

/-- The target path of a transformed file as copy_encrypted_file
computes it: the source-relative path with its extension replaced by the
artifact's extension, mirrored under the target root. -/
def encTarget (f : RelPath) : RelPath :=
  withSuffixPath f (pySuffix (fileName (encArtifact f)))

/-- The transformation step (encrypt_file): an unsupported extension
fails up front; otherwise success is exactly a zero exit status together
with the artifact present on disk, and the artifact path is returned. -/
def encryptFile (tool : ToolResult) (f : RelPath) : Bool × Option RelPath :=
  if pySuffix (fileName f) ∈ supportedExtensions then
    match tool with
    | ToolResult.completed code art =>
      if code = 0 ∧ art = true then (true, some (encArtifact f)) else (false, none)
    | _ => (false, none)
  else (false, none)

/-- The mutable state of a run after discovery: counters, the record
lists, the source tree contents, and the target tree contents (files and
created directories). -/
structure RunState where
  stats : Stats
  failedFiles : List (RelPath × String)
  skippedFiles : List (String × String)
  processedFiles : List RelPath
  lstFiles : List (RelPath × RelPath)
  srcFiles : List RelPath
  targetFiles : List RelPath
  targetDirs : List RelPath
deriving DecidableEq

/-- Add a path to a set-like file list (writing a file to disk). -/
def insertFile (l : List RelPath) (x : RelPath) : List RelPath :=
  if x ∈ l then l else l ++ [x]

/-- Remove a path from a set-like file list (deleting a file from disk). -/
def removeFile (l : List RelPath) (x : RelPath) : List RelPath :=
  l.filter (fun y => y != x)

/-- Create a directory and its missing parents
(mkdir with parents and exist_ok): every proper prefix of the path
becomes present. -/
def mkdirAll (dirs : List RelPath) (ds : List String) : List RelPath :=
  (ancestors ds).foldl insertFile dirs

/-- Process one discovered file (the loop body of process_files composed
with copy_original_file, encrypt_file and copy_encrypted_file): tier-2
copy-only routing first, otherwise the transform path; every outcome
updates exactly one terminal counter. -/
def processOne (cfg : Config) (out : FileOutcome) (f : RelPath) (st : RunState) : RunState :=
  if shouldCopyOnly cfg f then
    if out.copyOrigOk then
      let st1 := { st with
        targetDirs := mkdirAll st.targetDirs f.dropLast,
        targetFiles := insertFile st.targetFiles f }
      if pySuffix (fileName f) = ".lst" then
        { st1 with
          lstFiles := st1.lstFiles ++ [(f, f)],
          stats := { st1.stats with copied_only := st1.stats.copied_only + 1 } }
      else
        { st1 with
          processedFiles := st1.processedFiles ++ [f],
          stats := { st1.stats with copied_only := st1.stats.copied_only + 1 } }
    else
      { st with
        failedFiles := st.failedFiles ++ [(f, "Copy-only failed")],
        stats := { st.stats with failed := st.stats.failed + 1 } }
  else
    let srcAfterTool :=
      match out.tool with
      | ToolResult.completed _ true => insertFile st.srcFiles (encArtifact f)
      | _ => st.srcFiles
    match encryptFile out.tool f with
    | (true, some enc) =>
      if out.copyEncOk then
        let tgt := withSuffixPath f (pySuffix (fileName enc))
        { st with
          targetDirs := mkdirAll st.targetDirs tgt.dropLast,
          targetFiles := insertFile st.targetFiles tgt,
          processedFiles := st.processedFiles ++ [tgt],
          srcFiles := removeFile srcAfterTool enc,
          stats := { st.stats with success := st.stats.success + 1 } }
      else
        { st with
          srcFiles := srcAfterTool,
          failedFiles := st.failedFiles ++ [(f, "Copy failed")],
          stats := { st.stats with failed := st.stats.failed + 1 } }
    | _ =>
      { st with
        srcFiles := srcAfterTool,
        failedFiles := st.failedFiles ++ [(f, "Encryption failed")],
        stats := { st.stats with failed := st.stats.failed + 1 } }

/-- Batch processing (process_files): fold the per-file step over the
discovered list; the oracle fixes each file's environment behaviour. -/
def processFiles (cfg : Config) (oracle : RelPath → FileOutcome)
    (files : List RelPath) (st : RunState) : RunState :=
  files.foldl (fun st f => processOne cfg (oracle f) f st) st

/-- The run state right after discovery: counters from the discovery
pass, record lists fresh, source tree as given, target tree empty. -/
def initState (d : DiscoveryResult) (tree : List RelPath) : RunState :=
  { stats := { total_found := d.totalFound, success := 0, failed := 0,
               skipped := d.skippedCount, copied_only := 0 },
    failedFiles := [], skippedFiles := d.skippedRecs,
    processedFiles := [], lstFiles := [],
    srcFiles := tree, targetFiles := [], targetDirs := [] }

/-- Discovery followed by processing of the discovered files. -/
def runPipeline (cfg : Config) (oracle : RelPath → FileOutcome)
    (tree : List RelPath) : RunState :=
  let d := findFiles cfg tree
  processFiles cfg oracle d.found (initState d tree)

/-- The body of the generated filelist (generate_filelist): the sorted
processed-file paths; lst files are kept out of it by construction. -/
def manifestBody (st : RunState) : List RelPath :=
  List.insertionSort pLe st.processedFiles

/-- The observable outcome of run() plus the process exit status logic
of main(). -/
structure RunOutput where
  ok : Bool
  stats : Stats
  reportWritten : Bool
  filelistWritten : Bool
deriving DecidableEq

/-- The run workflow after path validation (run): discovery, then an
early successful return when nothing was found (no filelist and no
report are generated on that path), otherwise processing followed by
report generation; the filelist is written only when a name was given
and something was processed. -/
def runFull (cfg : Config) (oracle : RelPath → FileOutcome) (tree : List RelPath)
    (filelistName : Option String) : RunOutput :=
  let d := findFiles cfg tree
  let st0 := initState d tree
  if d.found.isEmpty then
    { ok := true, stats := st0.stats, reportWritten := false, filelistWritten := false }
  else
    let st := processFiles cfg oracle d.found st0
    { ok := true, stats := st.stats, reportWritten := true,
      filelistWritten := filelistName.isSome &&
        (!st.processedFiles.isEmpty || !st.lstFiles.isEmpty) }

/-- The process exit status chosen by main() from the run result. -/
def exitStatus (r : RunOutput) : Nat := if r.ok then 0 else 1

/-- A pattern of plain literals matches exactly the equal string. -/
theorem gmTok_lit (l : List Char) : ∀ s, gmTok (l.map GTok.lit) s = true ↔ s = l := by
  induction l with
  | nil =>
    intro s
    simp [gmTok, List.isEmpty_iff]
  | cons c l ih =>
    intro s
    cases s with
    | nil => simp [gmTok]
    | cons d cs =>
      simp only [List.map_cons, gmTok, Bool.and_eq_true, beq_iff_eq, ih, List.cons.injEq]
      tauto

/-- The star token matches when some suffix of the input matches the rest. -/
theorem gmTok_star (ts : List GTok) (s : List Char) :
    gmTok (GTok.star :: ts) s = true ↔ ∃ t, t <:+ s ∧ gmTok ts t = true := by
  simp only [gmTok, List.any_eq_true, List.mem_tails]

/-- A star followed by literals matches exactly the strings with that
literal suffix. -/
theorem gmTok_star_lit (l : List Char) (s : List Char) :
    gmTok (GTok.star :: l.map GTok.lit) s = true ↔ l <:+ s := by
  rw [gmTok_star]
  constructor
  · rintro ⟨t, hts, h⟩
    rwa [(gmTok_lit l t).mp h] at hts
  · intro h
    exact ⟨l, h, (gmTok_lit l l).mpr rfl⟩

/-- The per-extension discovery glob matches a name exactly when the
extension is a character suffix of the name. -/
theorem fnmatch_ext_iff (ext : String) (hx : ext ∈ supportedExtensions) (n : String) :
    (fnmatch n ("*" ++ ext) = true) ↔ ext.data <:+ n.data := by
  simp only [supportedExtensions, List.mem_cons, List.not_mem_nil, or_false] at hx
  rcases hx with rfl | rfl | rfl | rfl | rfl
  · show gmTok (GTok.star :: [GTok.lit '.', GTok.lit 'v']) n.data = true ↔ _
    exact gmTok_star_lit ['.', 'v'] n.data
  · show gmTok (GTok.star :: [GTok.lit '.', GTok.lit 'v', GTok.lit 'h']) n.data = true ↔ _
    exact gmTok_star_lit ['.', 'v', 'h'] n.data
  · show gmTok (GTok.star :: [GTok.lit '.', GTok.lit 's', GTok.lit 'v']) n.data = true ↔ _
    exact gmTok_star_lit ['.', 's', 'v'] n.data
  · show gmTok (GTok.star :: [GTok.lit '.', GTok.lit 's', GTok.lit 'v', GTok.lit 'h']) n.data = true ↔ _
    exact gmTok_star_lit ['.', 's', 'v', 'h'] n.data
  · show gmTok (GTok.star :: [GTok.lit '.', GTok.lit 'l', GTok.lit 's', GTok.lit 't']) n.data = true ↔ _
    exact gmTok_star_lit ['.', 'l', 's', 't'] n.data

/-- No name carries two distinct recognized extensions as suffixes: the
five recognized extension globs are pairwise disjoint. -/
theorem ext_suffix_unique :
    ∀ e1 ∈ supportedExtensions, ∀ e2 ∈ supportedExtensions,
      ∀ n : List Char, e1.data <:+ n → e2.data <:+ n → e1 = e2 := by
  have key : ∀ a ∈ supportedExtensions, ∀ b ∈ supportedExtensions,
      a.data <:+ b.data → a = b := by decide
  intro e1 h1 e2 h2 n hs1 hs2
  rcases List.suffix_or_suffix_of_suffix hs1 hs2 with h | h
  · exact key e1 h1 e2 h2 h
  · exact (key e2 h2 e1 h1 h).symm

/-- A file matches at most one recognized-extension glob. -/
theorem extMatches_unique (f : RelPath) :
    ∀ e1 ∈ supportedExtensions, ∀ e2 ∈ supportedExtensions,
      extMatches f e1 = true → extMatches f e2 = true → e1 = e2 := by
  intro e1 h1 e2 h2 m1 m2
  exact ext_suffix_unique e1 h1 e2 h2 (fileName f).data
    ((fnmatch_ext_iff e1 h1 (fileName f)).mp m1)
    ((fnmatch_ext_iff e2 h2 (fileName f)).mp m2)

/-- The component-wise path order is total. -/
theorem pathLe_total : ∀ a b : RelPath, pathLe a b = true ∨ pathLe b a = true := by
  intro a
  induction a with
  | nil => intro b; left; rfl
  | cons x xs ih =>
    intro b
    cases b with
    | nil => right; rfl
    | cons y ys =>
      rcases lt_trichotomy x y with h | h | h
      · left; simp [pathLe, h]
      · subst h
        rcases ih ys with h2 | h2
        · left; simp [pathLe, h2, lt_irrefl]
        · right; simp [pathLe, h2, lt_irrefl]
      · right; simp [pathLe, h]

/-- The component-wise path order is transitive. -/
theorem pathLe_trans : ∀ a b c : RelPath,
    pathLe a b = true → pathLe b c = true → pathLe a c = true := by
  intro a
  induction a with
  | nil => intro b c _ _; rfl
  | cons x xs ih =>
    intro b c hab hbc
    cases b with
    | nil => simp [pathLe] at hab
    | cons y ys =>
      cases c with
      | nil => simp [pathLe] at hbc
      | cons z zs =>
        simp only [pathLe] at hab hbc ⊢
        by_cases hxy : x < y
        · by_cases hyz : y < z
          · simp [lt_trans hxy hyz]
          · by_cases hzy : z < y
            · simp [hyz, hzy] at hbc
            · have : y = z := le_antisymm (not_lt.mp hzy) (not_lt.mp hyz)
              subst this
              simp [hxy]
        · by_cases hyx : y < x
          · simp [hxy, hyx] at hab
          · have : x = y := le_antisymm (not_lt.mp hyx) (not_lt.mp hxy)
            subst this
            simp only [lt_irrefl, if_false] at hab
            by_cases hyz : x < z
            · simp [hyz]
            · by_cases hzy : z < x
              · simp [hyz, hzy] at hbc
              · have : x = z := le_antisymm (not_lt.mp hzy) (not_lt.mp hyz)
                subst this
                simp only [lt_irrefl, if_false] at hbc ⊢
                exact ih _ _ hab hbc

instance : IsTotal RelPath pLe := ⟨pathLe_total⟩

instance : IsTrans RelPath pLe := ⟨fun a b c => pathLe_trans a b c⟩

/-- The prefix list of a nonempty list is the prefix list of its
front part followed by the list itself. -/
theorem inits_eq_dropLast {α : Type} (l : List α) (h : l ≠ []) :
    l.inits = l.dropLast.inits ++ [l] := by
  induction l with
  | nil => exact absurd rfl h
  | cons a l ih =>
    cases l with
    | nil => rfl
    | cons b l2 =>
      have hd : (a :: b :: l2).dropLast = a :: (b :: l2).dropLast := rfl
      rw [hd, List.inits_cons, ih (List.cons_ne_nil b l2), List.inits_cons]
      simp

/-- The ancestor walk satisfies the recursion the parents loop performs:
the immediate parent first, then the ancestors of the parent. -/
theorem ancestors_eq (ds : List String) (h : ds ≠ []) :
    ancestors ds = ds :: ancestors ds.dropLast := by
  unfold ancestors
  rw [inits_eq_dropLast ds h]
  cases hx : ds.dropLast.inits with
  | nil =>
    cases hd : ds.dropLast with
    | nil => rw [hd] at hx; simp at hx
    | cons c t => rw [hd, List.inits_cons] at hx; simp at hx
  | cons c t => simp

/-- The source root (the empty relative path) is never in an ancestor
chain: every walked ancestor is a nonempty relative path. -/
theorem ancestors_ne_nil (ds : List String) : [] ∉ ancestors ds := by
  unfold ancestors
  cases ds with
  | nil => simp
  | cons a l =>
    rw [List.inits_cons]
    simp only [List.drop_succ_cons, List.drop_zero, List.mem_reverse, List.mem_map]
    rintro ⟨t, -, h⟩
    exact List.cons_ne_nil a t h

/-- The spec-side description of the walked chain, for the refinement
comparison: the proper prefixes of the file's directory part, longest
(the immediate parent) first, the empty prefix (the source root)
excluded. -/
def properAncestorsSpec (f : RelPath) : List RelPath :=
  (List.range f.dropLast.length).map (fun k => f.dropLast.take (f.dropLast.length - k))

/-- The ancestor walk of the code equals the spec-side chain of proper
prefixes in decreasing length order. -/
theorem ancestors_spec (ds : List String) :
    ancestors ds = (List.range ds.length).map (fun k => ds.take (ds.length - k)) := by
  suffices h : ∀ n (ds : List String), ds.length = n →
      ancestors ds = (List.range ds.length).map (fun k => ds.take (ds.length - k)) from
    h ds.length ds rfl
  intro n
  induction n with
  | zero =>
    intro ds hn
    have : ds = [] := List.length_eq_zero.mp hn
    subst this
    rfl
  | succ n ih =>
    intro ds hn
    have hne : ds ≠ [] := by
      intro h; subst h; simp at hn
    have hlen : ds.dropLast.length = n := by
      rw [List.length_dropLast, hn]
      omega
    rw [ancestors_eq ds hne, ih ds.dropLast hlen, hlen, hn,
      List.range_succ_eq_map, List.map_cons, List.map_map]
    congr 1
    · rw [Nat.sub_zero, ← hn, List.take_length]
    · apply List.map_congr_left
      intro k hk
      have hk2 : k < n := List.mem_range.mp hk
      simp only [Function.comp_apply, List.dropLast_eq_take, List.take_take, hn]
      congr 1
      omega

/-- findSome? returns the image of the first element on which the
function fires; earlier elements that yield none are skipped. -/
theorem findSome?_first {α β : Type} (g : α → Option β) :
    ∀ (pre : List α) (a : α) (post : List α) (r : β),
      (∀ x ∈ pre, g x = none) → g a = some r →
      (pre ++ a :: post).findSome? g = some r := by
  intro pre
  induction pre with
  | nil =>
    intro a post r _ ha
    simp [List.findSome?_cons, ha]
  | cons x pre ih =>
    intro a post r hpre ha
    have hx : g x = none := hpre x (List.mem_cons_self x pre)
    simp only [List.cons_append, List.findSome?_cons, hx]
    exact ih a post r (fun y hy => hpre y (List.mem_cons_of_mem x hy)) ha

/-- Strings are equal when their character lists are. -/
theorem str_ext {a b : String} (h : a.data = b.data) : a = b := by
  cases a; cases b; exact congrArg String.mk h

/-- Appending strings appends their character lists. -/
theorem str_data_append (a b : String) : (a ++ b).data = a.data ++ b.data := rfl

/-- The suffix scan walks over dot-free characters, accumulating them. -/
theorem findSuffixRev_no_dot (xs : List Char) (hx : '.' ∉ xs) :
    ∀ (acc ys : List Char),
      findSuffixRev acc (xs ++ ys) = findSuffixRev (xs.reverse ++ acc) ys := by
  induction xs with
  | nil => intro acc ys; simp
  | cons c xs ih =>
    intro acc ys
    have hc : ¬ c = '.' := fun h => hx (h ▸ List.mem_cons_self c xs)
    have hx2 : '.' ∉ xs := fun h => hx (List.mem_cons_of_mem c h)
    have step : findSuffixRev acc ((c :: xs) ++ ys) = findSuffixRev (c :: acc) (xs ++ ys) := by
      simp only [List.cons_append, findSuffixRev, if_neg hc, List.append_eq]
    rw [step, ih hx2 (c :: acc) ys, List.reverse_cons, List.append_assoc,
      List.singleton_append]

/-- Computation of the suffix for a name of the shape stem-dot-tail with
nonempty stem, nonempty dot-free tail. -/
theorem pySuffixL_concrete (u t : List Char) (hu : u ≠ []) (ht : t ≠ []) (hd : '.' ∉ t) :
    pySuffixL (u ++ '.' :: t) = '.' :: t := by
  have hrev : (u ++ '.' :: t).reverse = t.reverse ++ '.' :: u.reverse := by
    simp
  have hdr : '.' ∉ t.reverse := by simpa using hd
  unfold pySuffixL
  rw [hrev, findSuffixRev_no_dot t.reverse hdr [] ('.' :: u.reverse)]
  simp [findSuffixRev, ht, hu]

/-- Inversion of the suffix scan: a successful scan splits the reversed
name at a dot with dot-free characters after it. -/
theorem findSuffixRev_some :
    ∀ (rev acc s : List Char), findSuffixRev acc rev = some s →
      ∃ pre rest, rev = pre ++ '.' :: rest ∧ '.' ∉ pre ∧ rest ≠ [] ∧
        pre.reverse ++ acc ≠ [] ∧ s = '.' :: (pre.reverse ++ acc) := by
  intro rev
  induction rev with
  | nil => intro acc s h; simp [findSuffixRev] at h
  | cons c rest ih =>
    intro acc s h
    by_cases hc : c = '.'
    · subst hc
      simp only [findSuffixRev, if_pos rfl] at h
      by_cases hguard : acc = [] ∨ rest = []
      · rw [if_pos hguard] at h; exact absurd h (by simp)
      · rw [if_neg hguard] at h
        push_neg at hguard
        refine ⟨[], rest, by simp, by simp, hguard.2, by simpa using hguard.1, ?_⟩
        simpa using h.symm
    · simp only [findSuffixRev, if_neg hc] at h
      obtain ⟨pre, rest2, hrev, hnd, hne, hacc, hs⟩ := ih (c :: acc) s h
      refine ⟨c :: pre, rest2, by simp [hrev], ?_, hne, ?_, ?_⟩
      · intro hmem
        rcases List.mem_cons.mp hmem with h1 | h1
        · exact hc h1.symm
        · exact hnd h1
      · simp
      · rw [hs]
        simp [List.append_assoc]

/-- A name with a nonempty suffix splits as a nonempty stem, a dot, and
the dot-free nonempty suffix tail. -/
theorem pySuffixL_decomp (n s : List Char) (h : pySuffixL n = s) (hs : s ≠ []) :
    ∃ u t, n = u ++ '.' :: t ∧ u ≠ [] ∧ t ≠ [] ∧ '.' ∉ t ∧ s = '.' :: t := by
  unfold pySuffixL at h
  cases hf : findSuffixRev [] n.reverse with
  | none => rw [hf] at h; exact absurd h.symm hs
  | some s2 =>
    rw [hf] at h
    obtain ⟨pre, rest, hrev, hnd, hne, hacc, hs2⟩ := findSuffixRev_some n.reverse [] s2 hf
    have hn : n = rest.reverse ++ '.' :: pre.reverse := by
      have := congrArg List.reverse hrev
      simpa using this
    refine ⟨rest.reverse, pre.reverse, hn, by simpa using hne, ?_, by simpa using hnd, ?_⟩
    · simpa using hacc
    · rw [← h, hs2]
      simp

/-- with_suffix on a name of the decomposed shape replaces everything
from the dot with the new suffix. -/
theorem withSuffixL_spec (u t s2 : List Char) (hu : u ≠ []) (ht : t ≠ []) (hd : '.' ∉ t) :
    withSuffixL (u ++ '.' :: t) s2 = u ++ s2 := by
  unfold withSuffixL
  rw [pySuffixL_concrete u t hu ht hd]
  rw [if_neg (by simp)]
  have hlen : (u ++ '.' :: t).length - ('.' :: t).length = u.length := by
    simp
  rw [hlen, List.take_left]

/-- Appending the artifact letter to a nonempty extension: the stem is
preserved, and the new name's extension is the old one with the letter
appended. This is the path arithmetic of encrypt_file and
copy_encrypted_file combined. -/
theorem withSuffix_p_spec (n : String) (hne : pySuffix n ≠ "") :
    ∃ u : List Char,
      n.data = u ++ (pySuffix n).data ∧ u ≠ [] ∧
      (withSuffixName n (pySuffix n ++ "p")).data = u ++ (pySuffix n).data ++ ['p'] ∧
      pySuffix (withSuffixName n (pySuffix n ++ "p")) = pySuffix n ++ "p" := by
  have hsd : (pySuffix n).data = pySuffixL n.data := rfl
  have hsne : pySuffixL n.data ≠ [] := by
    intro h
    exact hne (str_ext (by rw [hsd, h]))
  obtain ⟨u, t, hn, hu, ht, hd, hs⟩ := pySuffixL_decomp n.data (pySuffixL n.data) rfl hsne
  have hps : (pySuffix n ++ "p").data = '.' :: t ++ ['p'] := by
    rw [str_data_append, hsd, hs]
  have hw : (withSuffixName n (pySuffix n ++ "p")).data = u ++ ('.' :: (t ++ ['p'])) := by
    show withSuffixL n.data (pySuffix n ++ "p").data = _
    rw [hps, hn, withSuffixL_spec u t _ hu ht hd]
    simp
  have hnd2 : '.' ∉ t ++ ['p'] := by
    intro hmem
    rcases List.mem_append.mp hmem with h1 | h1
    · exact hd h1
    · simp at h1
  refine ⟨u, by rw [hsd, hs]; exact hn, hu, ?_, ?_⟩
  · rw [hw, hsd, hs]; simp
  · apply str_ext
    show pySuffixL (withSuffixName n (pySuffix n ++ "p")).data = (pySuffix n ++ "p").data
    rw [hw, pySuffixL_concrete u (t ++ ['p']) hu (by simp) hnd2, hps]
    simp

/-- The final component of a path after with_suffix is the renamed file,
and the directory part is unchanged. -/
theorem withSuffixPath_parts (f : RelPath) (s2 : String) :
    fileName (withSuffixPath f s2) = withSuffixName (fileName f) s2 ∧
      (withSuffixPath f s2).dropLast = f.dropLast := by
  unfold withSuffixPath fileName
  constructor
  · rw [List.getLastD_concat]
  · rw [List.dropLast_concat]

/-- The skip record contributed by a file when its exclusion fires. -/
def skipRec (cfg : Config) (f : RelPath) : Option (String × String) :=
  (fileExclusion cfg f).map (fun r => (relStr f, r))

/-- The surviving files of the scan, extension glob by extension glob. -/
def survivors (cfg : Config) (tree : List RelPath) : List RelPath :=
  supportedExtensions.flatMap (fun e =>
    (tree.filter (fun f => extMatches f e)).filter
      (fun f => (fileExclusion cfg f).isNone))

/-- The skip records of the scan, extension glob by extension glob. -/
def skipAll (cfg : Config) (tree : List RelPath) : List (String × String) :=
  supportedExtensions.flatMap (fun e =>
    (tree.filter (fun f => extMatches f e)).filterMap (skipRec cfg))

/-- The inner discovery loop appends each rejected file's record and
each surviving file, in encounter order. -/
theorem discover_foldl (cfg : Config) (l : List RelPath) :
    ∀ (a : List RelPath) (b : List (String × String)),
      l.foldl (discoverStep cfg) (a, b) =
        (a ++ l.filter (fun f => (fileExclusion cfg f).isNone),
         b ++ l.filterMap (skipRec cfg)) := by
  induction l with
  | nil => intro a b; simp
  | cons f l ih =>
    intro a b
    simp only [List.foldl_cons]
    cases h : fileExclusion cfg f with
    | some r =>
      have hstep : discoverStep cfg (a, b) f = (a, b ++ [(relStr f, r)]) := by
        simp [discoverStep, h]
      rw [hstep, ih]
      simp [List.filter_cons, List.filterMap_cons, skipRec, h]
    | none =>
      have hstep : discoverStep cfg (a, b) f = (a ++ [f], b) := by
        simp [discoverStep, h]
      rw [hstep, ih]
      simp [List.filter_cons, List.filterMap_cons, skipRec, h]

/-- The outer discovery loop concatenates the per-extension passes. -/
theorem scan_foldl (cfg : Config) (tree : List RelPath) :
    ∀ (es : List String) (a : List RelPath) (b : List (String × String)),
      es.foldl
        (fun acc ext => (tree.filter (fun f => extMatches f ext)).foldl (discoverStep cfg) acc)
        (a, b) =
        (a ++ es.flatMap (fun e =>
            (tree.filter (fun f => extMatches f e)).filter
              (fun f => (fileExclusion cfg f).isNone)),
         b ++ es.flatMap (fun e =>
            (tree.filter (fun f => extMatches f e)).filterMap (skipRec cfg))) := by
  intro es
  induction es with
  | nil => intro a b; simp
  | cons e es ih =>
    intro a b
    simp only [List.foldl_cons]
    rw [discover_foldl, ih]
    simp [List.flatMap_cons, List.append_assoc]

/-- The scan computes the survivors and the skip records. -/
theorem discoverScan_eq (cfg : Config) (tree : List RelPath) :
    discoverScan cfg tree = (survivors cfg tree, skipAll cfg tree) := by
  unfold discoverScan survivors skipAll
  rw [scan_foldl]
  simp

/-- Membership in the survivor list: in the tree, recognized, and not
excluded. -/
theorem mem_survivors (cfg : Config) (tree : List RelPath) (f : RelPath) :
    f ∈ survivors cfg tree ↔
      f ∈ tree ∧ recognized f = true ∧ fileExclusion cfg f = none := by
  unfold survivors recognized
  simp only [List.mem_flatMap, List.mem_filter, Option.isNone_iff_eq_none,
    List.any_eq_true]
  constructor
  · rintro ⟨e, he, ⟨⟨hf, hm⟩, hex⟩⟩
    exact ⟨hf, ⟨e, he, hm⟩, hex⟩
  · rintro ⟨hf, ⟨e, he, hm⟩, hex⟩
    exact ⟨e, he, ⟨⟨hf, hm⟩, hex⟩⟩

/-- Membership in the discovered set: in the tree, recognized, and not
excluded. -/
theorem mem_findFound (cfg : Config) (tree : List RelPath) (f : RelPath) :
    f ∈ (findFiles cfg tree).found ↔
      f ∈ tree ∧ recognized f = true ∧ fileExclusion cfg f = none := by
  show f ∈ List.insertionSort pLe (discoverScan cfg tree).1.dedup ↔ _
  rw [(List.perm_insertionSort pLe _).mem_iff, List.mem_dedup, discoverScan_eq]
  exact mem_survivors cfg tree f

/-- The discovered set is duplicate-free. -/
theorem findFound_nodup (cfg : Config) (tree : List RelPath) :
    (findFiles cfg tree).found.Nodup := by
  show (List.insertionSort pLe (discoverScan cfg tree).1.dedup).Nodup
  exact ((List.perm_insertionSort pLe _).nodup_iff).mpr (List.nodup_dedup _)

/-- The discovered set is sorted in the path order. -/
theorem findFound_sorted (cfg : Config) (tree : List RelPath) :
    (findFiles cfg tree).found.Sorted pLe := by
  show (List.insertionSort pLe (discoverScan cfg tree).1.dedup).Sorted pLe
  exact List.sorted_insertionSort pLe _

/-- The relative paths of a per-extension skip segment are the relative
paths of the rejected files of that glob pass. -/
theorem skipSeg_map_fst (cfg : Config) (l : List RelPath) :
    (l.filterMap (skipRec cfg)).map Prod.fst
      = (l.filter (fun f => (fileExclusion cfg f).isSome)).map relStr := by
  induction l with
  | nil => rfl
  | cons f l ih =>
    cases h : fileExclusion cfg f <;>
      simp [skipRec, List.filterMap_cons, List.filter_cons, h, ih]

/-- The relative paths of all skip records, pass by pass. -/
theorem skipAll_map_fst (cfg : Config) (tree : List RelPath) :
    (skipAll cfg tree).map Prod.fst =
      supportedExtensions.flatMap (fun e =>
        ((tree.filter (fun f => extMatches f e)).filter
          (fun f => (fileExclusion cfg f).isSome)).map relStr) := by
  unfold skipAll
  rw [List.map_flatMap]
  simp only [skipSeg_map_fst]

/-- Across passes over distinct recognized extensions, the rejected
relative paths stay duplicate-free: the globs are pairwise disjoint and
distinct tree entries render distinct relative strings. -/
theorem seg_nodup_aux (cfg : Config) (tree : List RelPath)
    (hn : (tree.map relStr).Nodup) :
    ∀ es : List String, es.Nodup → (∀ e ∈ es, e ∈ supportedExtensions) →
      (es.flatMap (fun e =>
        ((tree.filter (fun f => extMatches f e)).filter
          (fun f => (fileExclusion cfg f).isSome)).map relStr)).Nodup := by
  intro es
  induction es with
  | nil => intro _ _; simp
  | cons e es ih =>
    intro hnd hsub
    rw [List.flatMap_cons, List.nodup_append]
    refine ⟨?_, ih (List.Nodup.of_cons hnd) (fun x hx => hsub x (List.mem_cons_of_mem e hx)), ?_⟩
    · apply List.Nodup.sublist _ hn
      exact List.Sublist.map relStr ((List.filter_sublist _).trans (List.filter_sublist _))
    · intro x hx1 hx2
      simp only [List.mem_map, List.mem_filter] at hx1
      obtain ⟨f1, ⟨⟨hf1, hm1⟩, _⟩, hr1⟩ := hx1
      simp only [List.mem_flatMap, List.mem_map, List.mem_filter] at hx2
      obtain ⟨e2, he2, f2, ⟨⟨hf2, hm2⟩, _⟩, hr2⟩ := hx2
      have hef : f1 = f2 :=
        List.inj_on_of_nodup_map hn hf1 hf2 (hr1.trans hr2.symm)
      subst hef
      have hee : e = e2 :=
        extMatches_unique f1 e (hsub e (List.mem_cons_self e es)) e2
          (hsub e2 (List.mem_cons_of_mem e he2)) hm1 hm2
      subst hee
      exact (List.nodup_cons.mp hnd).1 he2

/-- The skip-record relative paths are duplicate-free. -/
theorem skipAll_fst_nodup (cfg : Config) (tree : List RelPath)
    (hn : (tree.map relStr).Nodup) :
    ((skipAll cfg tree).map Prod.fst).Nodup := by
  rw [skipAll_map_fst]
  exact seg_nodup_aux cfg tree hn supportedExtensions (by decide) (fun e he => he)

/-- A relative path has a skip record exactly when it renders a tree
file that is recognized and excluded. -/
theorem mem_skipAll_fst (cfg : Config) (tree : List RelPath) (x : String) :
    x ∈ (skipAll cfg tree).map Prod.fst ↔
      ∃ f ∈ tree, recognized f = true ∧ (fileExclusion cfg f).isSome = true ∧
        relStr f = x := by
  rw [skipAll_map_fst]
  simp only [List.mem_flatMap, List.mem_map, List.mem_filter, recognized,
    List.any_eq_true]
  constructor
  · rintro ⟨e, he, f, ⟨⟨hf, hm⟩, hex⟩, hr⟩
    exact ⟨f, hf, ⟨e, he, hm⟩, hex, hr⟩
  · rintro ⟨f, hf, ⟨e, he, hm⟩, hex, hr⟩
    exact ⟨e, he, f, ⟨⟨hf, hm⟩, hex⟩, hr⟩

/-- The skip-record relative paths are a permutation of the relative
paths of the rejected files: every rejected file has exactly one record. -/
theorem skipAll_perm (cfg : Config) (tree : List RelPath)
    (hn : (tree.map relStr).Nodup) :
    ((skipAll cfg tree).map Prod.fst).Perm
      ((tree.filter (fun f =>
        recognized f && (fileExclusion cfg f).isSome)).map relStr) := by
  have hrhs : ((tree.filter (fun f =>
      recognized f && (fileExclusion cfg f).isSome)).map relStr).Nodup :=
    List.Nodup.sublist (List.Sublist.map relStr (List.filter_sublist _)) hn
  refine (List.perm_ext_iff_of_nodup (skipAll_fst_nodup cfg tree hn) hrhs).mpr ?_
  intro x
  rw [mem_skipAll_fst]
  simp only [List.mem_map, List.mem_filter, Bool.and_eq_true]
  constructor
  · rintro ⟨f, hf, hrec, hex, hr⟩
    exact ⟨f, ⟨hf, hrec, hex⟩, hr⟩
  · rintro ⟨f, ⟨hf, hrec, hex⟩, hr⟩
    exact ⟨f, hf, hrec, hex, hr⟩

/-- The skipped counter equals the number of distinct rejected files. -/
theorem skipped_count_eq (cfg : Config) (tree : List RelPath)
    (hn : (tree.map relStr).Nodup) :
    (findFiles cfg tree).skippedCount =
      (tree.filter (fun f =>
        recognized f && (fileExclusion cfg f).isSome)).length := by
  show (discoverScan cfg tree).2.length = _
  rw [discoverScan_eq]
  have h := (skipAll_perm cfg tree hn).length_eq
  simpa using h

/-- The extension of a recognized file is never empty. -/
theorem supported_ne_empty {s : String} (hs : s ∈ supportedExtensions) : s ≠ "" := by
  intro h
  subst h
  exact (by decide : ¬ ("" ∈ supportedExtensions)) hs

/-- Appending the artifact letter never produces the list extension. -/
theorem append_p_ne_lst (s : String) : s ++ "p" ≠ ".lst" := by
  intro h
  have h2 := congrArg (fun x => x.data.getLast?) h
  simp only [str_data_append] at h2
  rw [List.getLast?_concat] at h2
  exact absurd h2 (by decide)

/-- The transformation reports success exactly when the tool completed
with exit status zero and the artifact is on disk. -/
theorem encryptFile_fst_iff (tool : ToolResult) (f : RelPath)
    (hsup : pySuffix (fileName f) ∈ supportedExtensions) :
    (encryptFile tool f).1 = true ↔ tool = ToolResult.completed 0 true := by
  cases tool with
  | completed code art =>
    by_cases h : code = 0 ∧ art = true
    · obtain ⟨h1, h2⟩ := h
      subst h1; subst h2
      simp [encryptFile, hsup]
    · simp only [encryptFile, if_pos hsup, if_neg h, ToolResult.completed.injEq]
      constructor
      · intro hfalse; exact absurd hfalse (by simp)
      · intro hc; exact absurd hc h
  | timeoutExpired => simp [encryptFile, hsup]
  | toolNotFound => simp [encryptFile, hsup]
  | otherExc => simp [encryptFile, hsup]

/-- A successful transformation yields the artifact path, and forces a
supported extension and the zero-exit-with-artifact tool result. -/
theorem encryptFile_success (tool : ToolResult) (f : RelPath)
    (h : (encryptFile tool f).1 = true) :
    pySuffix (fileName f) ∈ supportedExtensions ∧ tool = ToolResult.completed 0 true ∧
      encryptFile tool f = (true, some (encArtifact f)) := by
  by_cases hsup : pySuffix (fileName f) ∈ supportedExtensions
  · have htool := (encryptFile_fst_iff tool f hsup).mp h
    subst htool
    refine ⟨hsup, rfl, ?_⟩
    unfold encryptFile
    rw [if_pos hsup]
    simp
  · unfold encryptFile at h
    rw [if_neg hsup] at h
    simp at h

/-- Under a supported extension, the artifact and the mirrored target
coincide as relative paths, the target keeps the directory part, and its
extension is the source extension with the artifact letter appended. -/
theorem encTarget_spec (f : RelPath)
    (hsup : pySuffix (fileName f) ∈ supportedExtensions) :
    encTarget f = encArtifact f ∧
      (encTarget f).dropLast = f.dropLast ∧
      pySuffix (fileName (encTarget f)) = pySuffix (fileName f) ++ "p" ∧
      ∃ stem : String, fileName f = stem ++ pySuffix (fileName f) ∧
        fileName (encTarget f) = stem ++ pySuffix (fileName f) ++ "p" := by
  have hne : pySuffix (fileName f) ≠ "" := supported_ne_empty hsup
  obtain ⟨u, hn, hu, hw, hps⟩ := withSuffix_p_spec (fileName f) hne
  have hart : fileName (encArtifact f) =
      withSuffixName (fileName f) (pySuffix (fileName f) ++ "p") :=
    (withSuffixPath_parts f _).1
  have htgt : encTarget f = encArtifact f := by
    unfold encTarget
    rw [hart, hps]
    rfl
  refine ⟨htgt, ?_, ?_, ⟨⟨u⟩, ?_, ?_⟩⟩
  · rw [htgt]
    exact (withSuffixPath_parts f _).2
  · rw [htgt, hart, hps]
  · apply str_ext
    rw [str_data_append, hn]
  · apply str_ext
    rw [htgt, hart, hw]
    simp [str_data_append]

/-- Copy-only processing of a list-extension file: routed to the side
list, the main processed list untouched, the file mirrored to the same
relative path. -/
theorem processOne_copy_lst (cfg : Config) (out : FileOutcome) (f : RelPath)
    (st : RunState) (hco : shouldCopyOnly cfg f = true) (hok : out.copyOrigOk = true)
    (hlst : pySuffix (fileName f) = ".lst") :
    (processOne cfg out f st).lstFiles = st.lstFiles ++ [(f, f)] ∧
      (processOne cfg out f st).processedFiles = st.processedFiles ∧
      (processOne cfg out f st).targetFiles = insertFile st.targetFiles f ∧
      (processOne cfg out f st).targetDirs = mkdirAll st.targetDirs f.dropLast ∧
      (processOne cfg out f st).srcFiles = st.srcFiles ∧
      (processOne cfg out f st).failedFiles = st.failedFiles ∧
      (processOne cfg out f st).stats.copied_only = st.stats.copied_only + 1 := by
  simp [processOne, hco, hok, hlst]

/-- Copy-only processing of a non-list file: appended to the processed
list, mirrored to the same relative path, directories created. -/
theorem processOne_copy_nonlst (cfg : Config) (out : FileOutcome) (f : RelPath)
    (st : RunState) (hco : shouldCopyOnly cfg f = true) (hok : out.copyOrigOk = true)
    (hlst : pySuffix (fileName f) ≠ ".lst") :
    (processOne cfg out f st).processedFiles = st.processedFiles ++ [f] ∧
      (processOne cfg out f st).lstFiles = st.lstFiles ∧
      (processOne cfg out f st).targetFiles = insertFile st.targetFiles f ∧
      (processOne cfg out f st).targetDirs = mkdirAll st.targetDirs f.dropLast ∧
      (processOne cfg out f st).srcFiles = st.srcFiles ∧
      (processOne cfg out f st).stats.copied_only = st.stats.copied_only + 1 := by
  simp [processOne, hco, hok, hlst]

/-- Failed copy-only processing: the recorded reason and the counter. -/
theorem processOne_copy_fail (cfg : Config) (out : FileOutcome) (f : RelPath)
    (st : RunState) (hco : shouldCopyOnly cfg f = true) (hok : out.copyOrigOk = false) :
    (processOne cfg out f st).failedFiles = st.failedFiles ++ [(f, "Copy-only failed")] ∧
      (processOne cfg out f st).stats.failed = st.stats.failed + 1 ∧
      (processOne cfg out f st).processedFiles = st.processedFiles ∧
      (processOne cfg out f st).targetFiles = st.targetFiles ∧
      (processOne cfg out f st).srcFiles = st.srcFiles := by
  simp [processOne, hco, hok]

/-- Successful transform processing: the mirrored target is written, the
artifact is removed from the source tree, the success counter steps. -/
theorem processOne_transform_success (cfg : Config) (out : FileOutcome) (f : RelPath)
    (st : RunState) (hco : shouldCopyOnly cfg f = false)
    (hsup : pySuffix (fileName f) ∈ supportedExtensions)
    (htool : out.tool = ToolResult.completed 0 true) (hcopy : out.copyEncOk = true) :
    (processOne cfg out f st).processedFiles = st.processedFiles ++ [encTarget f] ∧
      (processOne cfg out f st).targetFiles = insertFile st.targetFiles (encTarget f) ∧
      (processOne cfg out f st).targetDirs = mkdirAll st.targetDirs (encTarget f).dropLast ∧
      (processOne cfg out f st).srcFiles =
        removeFile (insertFile st.srcFiles (encArtifact f)) (encArtifact f) ∧
      (processOne cfg out f st).lstFiles = st.lstFiles ∧
      (processOne cfg out f st).failedFiles = st.failedFiles ∧
      (processOne cfg out f st).stats.success = st.stats.success + 1 := by
  have henc : encryptFile (ToolResult.completed 0 true) f = (true, some (encArtifact f)) := by
    simp [encryptFile, hsup]
  simp [processOne, hco, htool, henc, hcopy, encTarget]

/-- Transform processing with a failed artifact copy: the recorded
reason, the counter, and the artifact left behind in the source tree. -/
theorem processOne_transform_copyfail (cfg : Config) (out : FileOutcome) (f : RelPath)
    (st : RunState) (hco : shouldCopyOnly cfg f = false)
    (hsup : pySuffix (fileName f) ∈ supportedExtensions)
    (htool : out.tool = ToolResult.completed 0 true) (hcopy : out.copyEncOk = false) :
    (processOne cfg out f st).failedFiles = st.failedFiles ++ [(f, "Copy failed")] ∧
      (processOne cfg out f st).stats.failed = st.stats.failed + 1 ∧
      (processOne cfg out f st).processedFiles = st.processedFiles ∧
      (processOne cfg out f st).targetFiles = st.targetFiles := by
  have henc : encryptFile (ToolResult.completed 0 true) f = (true, some (encArtifact f)) := by
    simp [encryptFile, hsup]
  simp [processOne, hco, htool, henc, hcopy]

/-- Transform processing with a failed transformation, whatever its
cause: the single recorded reason and the counter. -/
theorem processOne_transform_fail (cfg : Config) (out : FileOutcome) (f : RelPath)
    (st : RunState) (hco : shouldCopyOnly cfg f = false)
    (hfail : (encryptFile out.tool f).1 = false) :
    (processOne cfg out f st).failedFiles = st.failedFiles ++ [(f, "Encryption failed")] ∧
      (processOne cfg out f st).stats.failed = st.stats.failed + 1 ∧
      (processOne cfg out f st).processedFiles = st.processedFiles ∧
      (processOne cfg out f st).targetFiles = st.targetFiles := by
  cases henc : encryptFile out.tool f with
  | mk b o =>
    have hb : b = false := by rw [← hfail, henc]
    subst hb
    simp [processOne, hco, henc]

/-- Membership after writing a file to the target set. -/
theorem mem_insertFile (l : List RelPath) (x y : RelPath) :
    y ∈ insertFile l x ↔ y ∈ l ∨ y = x := by
  unfold insertFile
  by_cases h : x ∈ l
  · rw [if_pos h]
    constructor
    · exact Or.inl
    · rintro (hy | rfl)
      · exact hy
      · exact h
  · rw [if_neg h]
    simp

/-- Folding file insertions keeps old members and adds all new ones. -/
theorem foldl_insertFile_mem (xs : List RelPath) :
    ∀ (acc : List RelPath) (y : RelPath),
      (y ∈ acc ∨ y ∈ xs) → y ∈ xs.foldl insertFile acc := by
  induction xs with
  | nil =>
    intro acc y h
    rcases h with h | h
    · exact h
    · simp at h
  | cons x xs ih =>
    intro acc y h
    simp only [List.foldl_cons]
    apply ih
    rcases h with h | h
    · exact Or.inl ((mem_insertFile acc x y).mpr (Or.inl h))
    · rcases List.mem_cons.mp h with rfl | h
      · exact Or.inl ((mem_insertFile acc y y).mpr (Or.inr rfl))
      · exact Or.inr h

/-- Creating a directory chain keeps previously created directories and
makes every ancestor of the new directory present. -/
theorem mkdirAll_mem (dirs : List RelPath) (ds : List String) :
    (∀ d ∈ dirs, d ∈ mkdirAll dirs ds) ∧
      (∀ d ∈ ancestors ds, d ∈ mkdirAll dirs ds) := by
  constructor
  · intro d hd
    exact foldl_insertFile_mem (ancestors ds) dirs d (Or.inl hd)
  · intro d hd
    exact foldl_insertFile_mem (ancestors ds) dirs d (Or.inr hd)

/-- Each processing step leaves the discovery counters alone, moves
exactly one of the three terminal counters up by one, and never moves
any counter down. -/
theorem processOne_stats (cfg : Config) (out : FileOutcome) (f : RelPath) (st : RunState) :
    (processOne cfg out f st).stats.total_found = st.stats.total_found ∧
      (processOne cfg out f st).stats.skipped = st.stats.skipped ∧
      (processOne cfg out f st).stats.success + (processOne cfg out f st).stats.copied_only +
        (processOne cfg out f st).stats.failed
        = st.stats.success + st.stats.copied_only + st.stats.failed + 1 ∧
      st.stats.success ≤ (processOne cfg out f st).stats.success ∧
      st.stats.failed ≤ (processOne cfg out f st).stats.failed ∧
      st.stats.copied_only ≤ (processOne cfg out f st).stats.copied_only := by
  unfold processOne
  repeat' split
  all_goals (try simp)
  all_goals omega

/-- Unfolding one step of the batch fold. -/
theorem processFiles_cons (cfg : Config) (oracle : RelPath → FileOutcome)
    (f : RelPath) (rest : List RelPath) (st : RunState) :
    processFiles cfg oracle (f :: rest) st
      = processFiles cfg oracle rest (processOne cfg (oracle f) f st) := rfl

/-- Batch processing leaves the discovery counters alone, raises the
sum of the terminal counters by exactly the number of files processed,
and never moves any counter down. -/
theorem processFiles_stats (cfg : Config) (oracle : RelPath → FileOutcome) :
    ∀ (files : List RelPath) (st : RunState),
      (processFiles cfg oracle files st).stats.total_found = st.stats.total_found ∧
      (processFiles cfg oracle files st).stats.skipped = st.stats.skipped ∧
      (processFiles cfg oracle files st).stats.success +
        (processFiles cfg oracle files st).stats.copied_only +
        (processFiles cfg oracle files st).stats.failed
        = st.stats.success + st.stats.copied_only + st.stats.failed + files.length ∧
      st.stats.success ≤ (processFiles cfg oracle files st).stats.success ∧
      st.stats.failed ≤ (processFiles cfg oracle files st).stats.failed ∧
      st.stats.copied_only ≤ (processFiles cfg oracle files st).stats.copied_only := by
  intro files
  induction files with
  | nil =>
    intro st
    simp [processFiles]
  | cons f rest ih =>
    intro st
    rw [processFiles_cons]
    obtain ⟨a1, a2, a3, a4, a5, a6⟩ := processOne_stats cfg (oracle f) f st
    obtain ⟨b1, b2, b3, b4, b5, b6⟩ := ih (processOne cfg (oracle f) f st)
    simp only [List.length_cons]
    refine ⟨by omega, by omega, by omega, by omega, by omega, by omega⟩

/-- A processing step never puts a list-extension target into the main
processed list. -/
theorem processOne_no_lst (cfg : Config) (out : FileOutcome) (f : RelPath) (st : RunState)
    (hst : ∀ p ∈ st.processedFiles, pySuffix (fileName p) ≠ ".lst") :
    ∀ p ∈ (processOne cfg out f st).processedFiles, pySuffix (fileName p) ≠ ".lst" := by
  by_cases hco : shouldCopyOnly cfg f = true
  · by_cases hok : out.copyOrigOk = true
    · by_cases hlst : pySuffix (fileName f) = ".lst"
      · rw [(processOne_copy_lst cfg out f st hco hok hlst).2.1]
        exact hst
      · rw [(processOne_copy_nonlst cfg out f st hco hok hlst).1]
        intro p hp
        rcases List.mem_append.mp hp with h | h
        · exact hst p h
        · rw [List.mem_singleton.mp h]
          exact hlst
    · have hok2 : out.copyOrigOk = false := by simpa using hok
      rw [(processOne_copy_fail cfg out f st hco hok2).2.2.1]
      exact hst
  · have hco2 : shouldCopyOnly cfg f = false := by simpa using hco
    cases hres : (encryptFile out.tool f).1 with
    | false =>
      rw [(processOne_transform_fail cfg out f st hco2 hres).2.2.1]
      exact hst
    | true =>
      obtain ⟨hsup, htool, _⟩ := encryptFile_success out.tool f hres
      by_cases hcopy : out.copyEncOk = true
      · rw [(processOne_transform_success cfg out f st hco2 hsup htool hcopy).1]
        intro p hp
        rcases List.mem_append.mp hp with h | h
        · exact hst p h
        · rw [List.mem_singleton.mp h]
          obtain ⟨-, -, hsfx, -⟩ := encTarget_spec f hsup
          rw [hsfx]
          exact append_p_ne_lst _
      · have hcopy2 : out.copyEncOk = false := by simpa using hcopy
        rw [(processOne_transform_copyfail cfg out f st hco2 hsup htool hcopy2).2.2.1]
        exact hst

/-- The whole batch never puts a list-extension target into the main
processed list. -/
theorem processFiles_no_lst (cfg : Config) (oracle : RelPath → FileOutcome) :
    ∀ (files : List RelPath) (st : RunState),
      (∀ p ∈ st.processedFiles, pySuffix (fileName p) ≠ ".lst") →
      ∀ p ∈ (processFiles cfg oracle files st).processedFiles,
        pySuffix (fileName p) ≠ ".lst" := by
  intro files
  induction files with
  | nil => intro st hst; exact hst
  | cons f rest ih =>
    intro st hst
    rw [processFiles_cons]
    exact ih _ (processOne_no_lst cfg (oracle f) f st hst)

/-- C1: a file on which the tier-1 exclusion check fires (an ancestor
directory matching an exclude-dir pattern, or the file name matching an
exclude-file pattern) is dispositioned Excluded and never enters the
discovered set, whatever the two copy-only pattern lists say about the
same path; so it is never classified CopyOnly or Transform: exclusion
strictly dominates copy-only. -/
theorem C1_exclusion_dominates (ef ed cf cd cf2 cd2 : List String)
    (tree : List RelPath) (f : RelPath) (r : String)
    (hex : fileExclusion ⟨ef, ed, cf, cd⟩ f = some r) :
    dispositionOf ⟨ef, ed, cf2, cd2⟩ f = Disposition.excluded ∧
      f ∉ (findFiles ⟨ef, ed, cf2, cd2⟩ tree).found := by
  have hsame : fileExclusion ⟨ef, ed, cf2, cd2⟩ f = some r := hex
  constructor
  · unfold dispositionOf
    rw [hsame]
  · intro hmem
    rw [mem_findFound] at hmem
    rw [hmem.2.2] at hsame
    exact Option.noConfusion hsame

/-- C1 witness: an excluded file stays Excluded even when every
copy-only pattern matches it. -/
theorem C1_exclusion_dominates_witness :
    fileExclusion ⟨["*_tb.v"], [], [], []⟩ ["a", "x_tb.v"]
        = some "Matched file exclusion pattern \x27*_tb.v\x27" ∧
      dispositionOf ⟨["*_tb.v"], [], ["*"], ["*"]⟩ ["a", "x_tb.v"] = Disposition.excluded ∧
      ["a", "x_tb.v"] ∉ (findFiles ⟨["*_tb.v"], [], ["*"], ["*"]⟩ [["a", "x_tb.v"]]).found := by
  refine ⟨by decide, ?_⟩
  exact C1_exclusion_dominates ["*_tb.v"] [] [] [] ["*"] ["*"] [["a", "x_tb.v"]]
    ["a", "x_tb.v"] "Matched file exclusion pattern \x27*_tb.v\x27" (by decide)

/-- C9: the exclusion walk tests exactly the proper ancestors strictly
between the file and the source root, immediate parent first moving
outward, never the root itself, and stops at the first matching
ancestor, whose pattern fixes the reason that find_files records. -/
theorem C9_ancestor_walk (cfg : Config) (f : RelPath) (pre post : List RelPath)
    (a : RelPath) (r : String)
    (hchain : ancestorChain f = pre ++ a :: post)
    (hpre : ∀ x ∈ pre, shouldExcludeDir cfg x = none)
    (ha : shouldExcludeDir cfg a = some r) :
    [] ∉ ancestorChain f ∧
      ancestorChain f = properAncestorsSpec f ∧
      (ancestorChain f).findSome? (shouldExcludeDir cfg) = some r ∧
      fileExclusion cfg f = some r := by
  have hfs : (ancestorChain f).findSome? (shouldExcludeDir cfg) = some r := by
    rw [hchain]
    exact findSome?_first _ pre a post r hpre ha
  refine ⟨ancestors_ne_nil f.dropLast, ancestors_spec f.dropLast, hfs, ?_⟩
  unfold fileExclusion
  rw [hfs]

/-- C9 witness: a file two levels down whose immediate parent does not
match while the outer ancestor does. -/
theorem C9_ancestor_walk_witness :
    ancestorChain ["a", "b", "x.v"] = [["a", "b"]] ++ ["a"] :: [] ∧
      (∀ x ∈ [(["a", "b"] : RelPath)], shouldExcludeDir ⟨[], ["a"], [], []⟩ x = none) ∧
      shouldExcludeDir ⟨[], ["a"], [], []⟩ ["a"]
        = some "Matched directory exclusion pattern \x27a\x27" ∧
      ([] ∉ ancestorChain ["a", "b", "x.v"] ∧
        ancestorChain ["a", "b", "x.v"] = properAncestorsSpec ["a", "b", "x.v"] ∧
        (ancestorChain ["a", "b", "x.v"]).findSome?
            (shouldExcludeDir ⟨[], ["a"], [], []⟩)
          = some "Matched directory exclusion pattern \x27a\x27" ∧
        fileExclusion ⟨[], ["a"], [], []⟩ ["a", "b", "x.v"]
          = some "Matched directory exclusion pattern \x27a\x27") := by
  refine ⟨by decide, by decide, by decide, ?_⟩
  exact C9_ancestor_walk ⟨[], ["a"], [], []⟩ ["a", "b", "x.v"] [["a", "b"]] []
    ["a"] "Matched directory exclusion pattern \x27a\x27" (by decide) (by decide) (by decide)

/-- C10: after the pipeline runs, the terminal counters partition the
discovered total (success + copied_only + failed = total_found), and no
processing step ever decreases any of the five counters. -/
theorem C10_counters_partition (cfg : Config) (oracle : RelPath → FileOutcome)
    (tree : List RelPath) :
    ((runPipeline cfg oracle tree).stats.success +
        (runPipeline cfg oracle tree).stats.copied_only +
        (runPipeline cfg oracle tree).stats.failed
      = (runPipeline cfg oracle tree).stats.total_found) ∧
    (∀ (out : FileOutcome) (f : RelPath) (st : RunState),
      st.stats.total_found ≤ (processOne cfg out f st).stats.total_found ∧
      st.stats.success ≤ (processOne cfg out f st).stats.success ∧
      st.stats.failed ≤ (processOne cfg out f st).stats.failed ∧
      st.stats.skipped ≤ (processOne cfg out f st).stats.skipped ∧
      st.stats.copied_only ≤ (processOne cfg out f st).stats.copied_only) := by
  constructor
  · obtain ⟨h1, -, h3, -, -, -⟩ := processFiles_stats cfg oracle
      (findFiles cfg tree).found (initState (findFiles cfg tree) tree)
    simp only [runPipeline]
    rw [h3, h1]
    simp [initState]
    rfl
  · intro out f st
    obtain ⟨e1, e2, -, e4, e5, e6⟩ := processOne_stats cfg out f st
    exact ⟨le_of_eq e1.symm, e4, e5, le_of_eq e2.symm, e6⟩

/-- C2: for a Transform-dispositioned file, the transformation succeeds
exactly when the subprocess exits with status zero AND the expected
artifact exists on disk; on any failure (non-zero exit, missing
artifact, timeout, tool not found, other exception, or a failed
artifact copy) the file is recorded as Failed with one reason record,
and the batch continues with the remaining files unchanged. -/
theorem C2_transform_success_iff (cfg : Config) (oracle : RelPath → FileOutcome)
    (f : RelPath) (st : RunState) (rest : List RelPath)
    (hsup : pySuffix (fileName f) ∈ supportedExtensions)
    (hco : shouldCopyOnly cfg f = false) :
    ((encryptFile (oracle f).tool f).1 = true ↔
        (oracle f).tool = ToolResult.completed 0 true) ∧
    (((encryptFile (oracle f).tool f).1 = false ∨ (oracle f).copyEncOk = false) →
      (processOne cfg (oracle f) f st).stats.failed = st.stats.failed + 1 ∧
      ∃ reason, (processOne cfg (oracle f) f st).failedFiles
        = st.failedFiles ++ [(f, reason)]) ∧
    processFiles cfg oracle (f :: rest) st
      = processFiles cfg oracle rest (processOne cfg (oracle f) f st) := by
  refine ⟨encryptFile_fst_iff _ f hsup, ?_, processFiles_cons cfg oracle f rest st⟩
  intro hfail
  cases hres : (encryptFile (oracle f).tool f).1 with
  | false =>
    obtain ⟨hf, hc, -, -⟩ := processOne_transform_fail cfg (oracle f) f st hco hres
    exact ⟨hc, "Encryption failed", hf⟩
  | true =>
    rcases hfail with h | h
    · rw [hres] at h
      exact absurd h (by simp)
    · obtain ⟨-, htool, -⟩ := encryptFile_success _ f hres
      obtain ⟨hf, hc, -, -⟩ :=
        processOne_transform_copyfail cfg (oracle f) f st hco hsup htool h
      exact ⟨hc, "Copy failed", hf⟩

/-- C2 witness: a timeout on a supported transform file is recorded as
one failure and the fold continues. -/
theorem C2_transform_success_iff_witness :
    pySuffix (fileName ["x.v"]) ∈ supportedExtensions ∧
      shouldCopyOnly ⟨[], [], [], []⟩ ["x.v"] = false ∧
      (((encryptFile ((fun _ => (⟨ToolResult.timeoutExpired, true, true⟩ : FileOutcome))
            (["x.v"] : RelPath)).tool ["x.v"]).1 = true ↔
          ((fun _ => (⟨ToolResult.timeoutExpired, true, true⟩ : FileOutcome))
            (["x.v"] : RelPath)).tool = ToolResult.completed 0 true) ∧
        (((encryptFile ((fun _ => (⟨ToolResult.timeoutExpired, true, true⟩ : FileOutcome))
              (["x.v"] : RelPath)).tool ["x.v"]).1 = false ∨
            ((fun _ => (⟨ToolResult.timeoutExpired, true, true⟩ : FileOutcome))
              (["x.v"] : RelPath)).copyEncOk = false) →
          (processOne ⟨[], [], [], []⟩
              ((fun _ => (⟨ToolResult.timeoutExpired, true, true⟩ : FileOutcome))
                (["x.v"] : RelPath)) ["x.v"]
              (initState (findFiles ⟨[], [], [], []⟩ [["x.v"]]) [["x.v"]])).stats.failed
            = (initState (findFiles ⟨[], [], [], []⟩ [["x.v"]]) [["x.v"]]).stats.failed + 1 ∧
          ∃ reason,
            (processOne ⟨[], [], [], []⟩
                ((fun _ => (⟨ToolResult.timeoutExpired, true, true⟩ : FileOutcome))
                  (["x.v"] : RelPath)) ["x.v"]
                (initState (findFiles ⟨[], [], [], []⟩ [["x.v"]]) [["x.v"]])).failedFiles
              = (initState (findFiles ⟨[], [], [], []⟩ [["x.v"]]) [["x.v"]]).failedFiles
                  ++ [(["x.v"], reason)]) ∧
        processFiles ⟨[], [], [], []⟩
            (fun _ => (⟨ToolResult.timeoutExpired, true, true⟩ : FileOutcome)) [["x.v"]]
            (initState (findFiles ⟨[], [], [], []⟩ [["x.v"]]) [["x.v"]])
          = processFiles ⟨[], [], [], []⟩
              (fun _ => (⟨ToolResult.timeoutExpired, true, true⟩ : FileOutcome)) []
              (processOne ⟨[], [], [], []⟩
                ((fun _ => (⟨ToolResult.timeoutExpired, true, true⟩ : FileOutcome))
                  (["x.v"] : RelPath)) ["x.v"]
                (initState (findFiles ⟨[], [], [], []⟩ [["x.v"]]) [["x.v"]]))) := by
  refine ⟨by decide, by decide, ?_⟩
  exact C2_transform_success_iff ⟨[], [], [], []⟩
    (fun _ => (⟨ToolResult.timeoutExpired, true, true⟩ : FileOutcome)) ["x.v"]
    (initState (findFiles ⟨[], [], [], []⟩ [["x.v"]]) [["x.v"]]) []
    (by decide) (by decide)

/-- C5 counterexample: two different failure causes — a timeout and a
non-zero exit status — are recorded with the identical reason string, so
the recorded reasons do not distinguish timeout from non-zero exit. -/
theorem C5_reasons_counterexample :
    (processOne ⟨[], [], [], []⟩ ⟨ToolResult.timeoutExpired, true, true⟩ ["x.v"]
        (initState (findFiles ⟨[], [], [], []⟩ [["x.v"]]) [["x.v"]])).failedFiles
      = [(["x.v"], "Encryption failed")] ∧
    (processOne ⟨[], [], [], []⟩ ⟨ToolResult.completed 1 true, true, true⟩ ["x.v"]
        (initState (findFiles ⟨[], [], [], []⟩ [["x.v"]]) [["x.v"]])).failedFiles
      = [(["x.v"], "Encryption failed")] ∧
    (processOne ⟨[], [], [], []⟩ ⟨ToolResult.toolNotFound, true, true⟩ ["x.v"]
        (initState (findFiles ⟨[], [], [], []⟩ [["x.v"]]) [["x.v"]])).failedFiles
      = [(["x.v"], "Encryption failed")] := by
  exact ⟨by decide, by decide, by decide⟩

/-- C5 (amended): the recorded reason distinguishes the failing stage —
a copy-only copy error, a transform-artifact copy error, and a failed
transformation give three pairwise distinct reason strings — but within
the transformation stage every cause (timeout, tool not found, non-zero
exit, missing artifact, other exception) is recorded with the one
reason string of that stage. -/
theorem C5_reasons_three_way (cfg : Config) (out : FileOutcome) (f : RelPath)
    (st : RunState) :
    (shouldCopyOnly cfg f = true → out.copyOrigOk = false →
      (processOne cfg out f st).failedFiles
        = st.failedFiles ++ [(f, "Copy-only failed")]) ∧
    (shouldCopyOnly cfg f = false →
      pySuffix (fileName f) ∈ supportedExtensions →
      out.tool = ToolResult.completed 0 true → out.copyEncOk = false →
      (processOne cfg out f st).failedFiles
        = st.failedFiles ++ [(f, "Copy failed")]) ∧
    (shouldCopyOnly cfg f = false → (encryptFile out.tool f).1 = false →
      (processOne cfg out f st).failedFiles
        = st.failedFiles ++ [(f, "Encryption failed")]) ∧
    ("Copy-only failed" ≠ "Copy failed" ∧ "Copy-only failed" ≠ "Encryption failed" ∧
      "Copy failed" ≠ "Encryption failed") := by
  refine ⟨?_, ?_, ?_, by decide⟩
  · intro hco hok
    exact (processOne_copy_fail cfg out f st hco hok).1
  · intro hco hsup htool hcopy
    exact (processOne_transform_copyfail cfg out f st hco hsup htool hcopy).1
  · intro hco hfail
    exact (processOne_transform_fail cfg out f st hco hfail).1

/-- C5 witness: the non-zero-exit cause lands in the transform-stage
reason record. -/
theorem C5_reasons_three_way_witness :
    (shouldCopyOnly ⟨[], [], [], []⟩ ["x.v"] = false ∧
      (encryptFile (ToolResult.completed 1 true) ["x.v"]).1 = false) ∧
    (processOne ⟨[], [], [], []⟩ ⟨ToolResult.completed 1 true, true, true⟩ ["x.v"]
        (initState (findFiles ⟨[], [], [], []⟩ [["x.v"]]) [["x.v"]])).failedFiles
      = (initState (findFiles ⟨[], [], [], []⟩ [["x.v"]]) [["x.v"]]).failedFiles
          ++ [(["x.v"], "Encryption failed")] := by
  refine ⟨⟨by decide, by decide⟩, ?_⟩
  exact (C5_reasons_three_way ⟨[], [], [], []⟩
    ⟨ToolResult.completed 1 true, true, true⟩ ["x.v"]
    (initState (findFiles ⟨[], [], [], []⟩ [["x.v"]]) [["x.v"]])).2.2.1
    (by decide) (by decide)

/-- C7: for a Transform file whose tool invocation and artifact copy
both succeed, the transient artifact is removed from the source tree
and nothing else in the source tree changes, while exactly one artifact
with the mapped extension (source extension plus the artifact letter)
is present in the target tree. -/
theorem C7_transform_frame (cfg : Config) (out : FileOutcome) (f : RelPath)
    (st : RunState)
    (hco : shouldCopyOnly cfg f = false)
    (hsup : pySuffix (fileName f) ∈ supportedExtensions)
    (htool : out.tool = ToolResult.completed 0 true)
    (hcopy : out.copyEncOk = true)
    (hart : encArtifact f ∉ st.srcFiles)
    (htgt : encTarget f ∉ st.targetFiles) :
    (processOne cfg out f st).srcFiles = st.srcFiles ∧
      (processOne cfg out f st).targetFiles.count (encTarget f) = 1 ∧
      pySuffix (fileName (encTarget f)) = pySuffix (fileName f) ++ "p" := by
  obtain ⟨-, htf, -, hsrc, -, -, -⟩ :=
    processOne_transform_success cfg out f st hco hsup htool hcopy
  refine ⟨?_, ?_, (encTarget_spec f hsup).2.2.1⟩
  · rw [hsrc]
    unfold removeFile insertFile
    rw [if_neg hart, List.filter_append]
    have h1 : st.srcFiles.filter (fun y => y != encArtifact f) = st.srcFiles := by
      apply List.filter_eq_self.mpr
      intro a ha
      rw [bne_iff_ne]
      intro h
      exact hart (h ▸ ha)
    rw [h1]
    simp
  · rw [htf]
    unfold insertFile
    rw [if_neg htgt, List.count_append, List.count_eq_zero.mpr htgt]
    simp

/-- C7 witness: a fresh transform success leaves the one-file source
tree exactly as it was and places one mapped artifact in the target. -/
theorem C7_transform_frame_witness :
    (shouldCopyOnly ⟨[], [], [], []⟩ ["x.v"] = false ∧
      pySuffix (fileName ["x.v"]) ∈ supportedExtensions ∧
      encArtifact ["x.v"] ∉
        (initState (findFiles ⟨[], [], [], []⟩ [["x.v"]]) [["x.v"]]).srcFiles ∧
      encTarget ["x.v"] ∉
        (initState (findFiles ⟨[], [], [], []⟩ [["x.v"]]) [["x.v"]]).targetFiles) ∧
    ((processOne ⟨[], [], [], []⟩ ⟨ToolResult.completed 0 true, true, true⟩ ["x.v"]
        (initState (findFiles ⟨[], [], [], []⟩ [["x.v"]]) [["x.v"]])).srcFiles
      = (initState (findFiles ⟨[], [], [], []⟩ [["x.v"]]) [["x.v"]]).srcFiles ∧
      (processOne ⟨[], [], [], []⟩ ⟨ToolResult.completed 0 true, true, true⟩ ["x.v"]
        (initState (findFiles ⟨[], [], [], []⟩ [["x.v"]]) [["x.v"]])).targetFiles.count
          (encTarget ["x.v"]) = 1 ∧
      pySuffix (fileName (encTarget ["x.v"])) = pySuffix (fileName ["x.v"]) ++ "p") := by
  refine ⟨⟨by decide, by decide, by decide, by decide⟩, ?_⟩
  exact C7_transform_frame ⟨[], [], [], []⟩ ⟨ToolResult.completed 0 true, true, true⟩
    ["x.v"] (initState (findFiles ⟨[], [], [], []⟩ [["x.v"]]) [["x.v"]])
    (by decide) (by decide) (by decide) (by decide) (by decide) (by decide)

/-- C8: a file with the default copy-only extension is CopyOnly even
with all four pattern lists empty (given it survives exclusion); its
copy is routed to the side list and not to the processed list; and the
manifest body of any batch contains no list-extension entry. -/
theorem C8_default_lst (ef ed : List String) (f : RelPath)
    (hlst : pySuffix (fileName f) = ".lst") :
    shouldCopyOnly ⟨ef, ed, [], []⟩ f = true ∧
    (fileExclusion ⟨ef, ed, [], []⟩ f = none →
      dispositionOf ⟨ef, ed, [], []⟩ f = Disposition.copyOnly) ∧
    (∀ (out : FileOutcome) (st : RunState), out.copyOrigOk = true →
      (processOne ⟨ef, ed, [], []⟩ out f st).lstFiles = st.lstFiles ++ [(f, f)] ∧
      (processOne ⟨ef, ed, [], []⟩ out f st).processedFiles = st.processedFiles) ∧
    (∀ (cfg : Config) (oracle : RelPath → FileOutcome) (files : List RelPath)
        (st : RunState),
      (∀ p ∈ st.processedFiles, pySuffix (fileName p) ≠ ".lst") →
      ∀ p ∈ manifestBody (processFiles cfg oracle files st),
        pySuffix (fileName p) ≠ ".lst") := by
  have hcopy : shouldCopyOnly ⟨ef, ed, [], []⟩ f = true := by
    simp [shouldCopyOnly, shouldCopyOnlyFile, defaultCopyOnlyExtensions, hlst]
  refine ⟨hcopy, ?_, ?_, ?_⟩
  · intro hex
    simp [dispositionOf, hex, hcopy]
  · intro out st hok
    obtain ⟨h1, h2, -⟩ := processOne_copy_lst ⟨ef, ed, [], []⟩ out f st hcopy hok hlst
    exact ⟨h1, h2⟩
  · intro cfg oracle files st hst p hp
    have hmem : p ∈ (processFiles cfg oracle files st).processedFiles :=
      (List.perm_insertionSort pLe
        (processFiles cfg oracle files st).processedFiles).mem_iff.mp hp
    exact processFiles_no_lst cfg oracle files st hst p hmem

/-- C8 witness: a list file with empty pattern lists is copy-only,
routed to the side list, and absent from the manifest body. -/
theorem C8_default_lst_witness :
    pySuffix (fileName ["files.lst"]) = ".lst" ∧
      shouldCopyOnly ⟨[], [], [], []⟩ ["files.lst"] = true ∧
      dispositionOf ⟨[], [], [], []⟩ ["files.lst"] = Disposition.copyOnly ∧
      (processOne ⟨[], [], [], []⟩ ⟨ToolResult.otherExc, true, true⟩ ["files.lst"]
          (initState (findFiles ⟨[], [], [], []⟩ [["files.lst"]]) [["files.lst"]])).lstFiles
        = (initState (findFiles ⟨[], [], [], []⟩ [["files.lst"]])
            [["files.lst"]]).lstFiles ++ [(["files.lst"], ["files.lst"])] ∧
      (processOne ⟨[], [], [], []⟩ ⟨ToolResult.otherExc, true, true⟩ ["files.lst"]
          (initState (findFiles ⟨[], [], [], []⟩ [["files.lst"]])
            [["files.lst"]])).processedFiles
        = (initState (findFiles ⟨[], [], [], []⟩ [["files.lst"]])
            [["files.lst"]]).processedFiles := by
  have h := C8_default_lst [] [] ["files.lst"] (by decide)
  refine ⟨by decide, h.1, h.2.1 (by decide), ?_, ?_⟩
  · exact (h.2.2.1 ⟨ToolResult.otherExc, true, true⟩
      (initState (findFiles ⟨[], [], [], []⟩ [["files.lst"]]) [["files.lst"]])
      (by decide)).1
  · exact (h.2.2.1 ⟨ToolResult.otherExc, true, true⟩
      (initState (findFiles ⟨[], [], [], []⟩ [["files.lst"]]) [["files.lst"]])
      (by decide)).2

/-- C3: a successfully processed file's target mirrors the source's
relative path under the target root: a copied file keeps its relative
path (hence its extension) unchanged, a transformed file keeps its
directory part and stem with only the extension replaced by the
artifact extension, and in both cases every intermediate target
directory on the path is created. -/
theorem C3_target_mirror (cfg : Config) (out : FileOutcome) (f : RelPath)
    (st : RunState) :
    (shouldCopyOnly cfg f = true → out.copyOrigOk = true →
      (processOne cfg out f st).targetFiles = insertFile st.targetFiles f ∧
      (∀ d ∈ ancestors f.dropLast, d ∈ (processOne cfg out f st).targetDirs)) ∧
    (shouldCopyOnly cfg f = false →
      pySuffix (fileName f) ∈ supportedExtensions →
      out.tool = ToolResult.completed 0 true → out.copyEncOk = true →
      (processOne cfg out f st).targetFiles = insertFile st.targetFiles (encTarget f) ∧
      (encTarget f).dropLast = f.dropLast ∧
      pySuffix (fileName (encTarget f)) = pySuffix (fileName f) ++ "p" ∧
      (∃ stem, fileName f = stem ++ pySuffix (fileName f) ∧
        fileName (encTarget f) = stem ++ pySuffix (fileName f) ++ "p") ∧
      (∀ d ∈ ancestors f.dropLast, d ∈ (processOne cfg out f st).targetDirs)) := by
  constructor
  · intro hco hok
    by_cases hlst : pySuffix (fileName f) = ".lst"
    · obtain ⟨-, -, h3, h4, -, -, -⟩ := processOne_copy_lst cfg out f st hco hok hlst
      refine ⟨h3, ?_⟩
      intro d hd
      rw [h4]
      exact (mkdirAll_mem st.targetDirs f.dropLast).2 d hd
    · obtain ⟨-, -, h3, h4, -, -⟩ := processOne_copy_nonlst cfg out f st hco hok hlst
      refine ⟨h3, ?_⟩
      intro d hd
      rw [h4]
      exact (mkdirAll_mem st.targetDirs f.dropLast).2 d hd
  · intro hco hsup htool hcopy
    obtain ⟨-, h2, h3, -, -, -, -⟩ :=
      processOne_transform_success cfg out f st hco hsup htool hcopy
    obtain ⟨-, hdrop, hsfx, hstem⟩ := encTarget_spec f hsup
    refine ⟨h2, hdrop, hsfx, hstem, ?_⟩
    intro d hd
    rw [h3]
    exact (mkdirAll_mem st.targetDirs (encTarget f).dropLast).2 d (by rw [hdrop]; exact hd)

/-- C3 witness: a copy-only header file keeps its path, a transformed
file maps x.v to x.vp in the same mirrored directory. -/
theorem C3_target_mirror_witness :
    (shouldCopyOnly ⟨[], [], ["*.vh"], []⟩ ["inc", "defs.vh"] = true ∧
      (processOne ⟨[], [], ["*.vh"], []⟩ ⟨ToolResult.otherExc, true, true⟩
          ["inc", "defs.vh"]
          (initState (findFiles ⟨[], [], ["*.vh"], []⟩ [["inc", "defs.vh"]])
            [["inc", "defs.vh"]])).targetFiles
        = insertFile (initState (findFiles ⟨[], [], ["*.vh"], []⟩ [["inc", "defs.vh"]])
            [["inc", "defs.vh"]]).targetFiles ["inc", "defs.vh"] ∧
      (["inc"] : RelPath) ∈ (processOne ⟨[], [], ["*.vh"], []⟩
          ⟨ToolResult.otherExc, true, true⟩ ["inc", "defs.vh"]
          (initState (findFiles ⟨[], [], ["*.vh"], []⟩ [["inc", "defs.vh"]])
            [["inc", "defs.vh"]])).targetDirs) ∧
    (shouldCopyOnly ⟨[], [], [], []⟩ ["a", "x.v"] = false ∧
      (encTarget ["a", "x.v"]).dropLast = (["a", "x.v"] : RelPath).dropLast ∧
      pySuffix (fileName (encTarget ["a", "x.v"]))
        = pySuffix (fileName ["a", "x.v"]) ++ "p" ∧
      (∃ stem, fileName ["a", "x.v"] = stem ++ pySuffix (fileName ["a", "x.v"]) ∧
        fileName (encTarget ["a", "x.v"])
          = stem ++ pySuffix (fileName ["a", "x.v"]) ++ "p")) := by
  constructor
  · have h := (C3_target_mirror ⟨[], [], ["*.vh"], []⟩ ⟨ToolResult.otherExc, true, true⟩
      ["inc", "defs.vh"]
      (initState (findFiles ⟨[], [], ["*.vh"], []⟩ [["inc", "defs.vh"]])
        [["inc", "defs.vh"]])).1 (by decide) (by decide)
    exact ⟨by decide, h.1, h.2 ["inc"] (by decide)⟩
  · have h := (C3_target_mirror ⟨[], [], [], []⟩ ⟨ToolResult.completed 0 true, true, true⟩
      ["a", "x.v"]
      (initState (findFiles ⟨[], [], [], []⟩ [["a", "x.v"]]) [["a", "x.v"]])).2
      (by decide) (by decide) (by decide) (by decide)
    exact ⟨by decide, h.2.1, h.2.2.1, h.2.2.2.1⟩

/-- C4: discovery returns a deduplicated, path-order-sorted result set
containing exactly the recognized non-excluded tree files; the rejected
files produce pairwise distinct skip records, one per rejected file;
and the two discovery counters equal the number of distinct rejected
and surviving files respectively. -/
theorem C4_discovery_shape (cfg : Config) (tree : List RelPath)
    (hn : (tree.map relStr).Nodup) :
    (findFiles cfg tree).found.Nodup ∧
    (findFiles cfg tree).found.Sorted pLe ∧
    (∀ f, f ∈ (findFiles cfg tree).found ↔
      f ∈ tree ∧ recognized f = true ∧ fileExclusion cfg f = none) ∧
    ((findFiles cfg tree).skippedRecs.map Prod.fst).Nodup ∧
    ((findFiles cfg tree).skippedRecs.map Prod.fst).Perm
      ((tree.filter (fun f =>
        recognized f && (fileExclusion cfg f).isSome)).map relStr) ∧
    (findFiles cfg tree).skippedCount
      = (tree.filter (fun f =>
          recognized f && (fileExclusion cfg f).isSome)).length ∧
    (findFiles cfg tree).totalFound = (findFiles cfg tree).found.length := by
  have hskip : (findFiles cfg tree).skippedRecs = skipAll cfg tree := by
    show (discoverScan cfg tree).2 = _
    rw [discoverScan_eq]
  refine ⟨findFound_nodup cfg tree, findFound_sorted cfg tree,
    mem_findFound cfg tree, ?_, ?_, skipped_count_eq cfg tree hn, rfl⟩
  · rw [hskip]
    exact skipAll_fst_nodup cfg tree hn
  · rw [hskip]
    exact skipAll_perm cfg tree hn

/-- C4 witness: the four-file scenario tree with one excluded
directory. -/
theorem C4_discovery_shape_witness :
    (([["a", "x.v"], ["a", "b", "y.sv"], ["a", "z.vh"],
        ["a", "files.lst"]].map relStr).Nodup : Prop) ∧
    (findFiles ⟨[], ["b"], [], []⟩
        [["a", "x.v"], ["a", "b", "y.sv"], ["a", "z.vh"], ["a", "files.lst"]]).found.Nodup ∧
    (findFiles ⟨[], ["b"], [], []⟩
        [["a", "x.v"], ["a", "b", "y.sv"], ["a", "z.vh"],
          ["a", "files.lst"]]).found.Sorted pLe ∧
    ((findFiles ⟨[], ["b"], [], []⟩
        [["a", "x.v"], ["a", "b", "y.sv"], ["a", "z.vh"],
          ["a", "files.lst"]]).skippedRecs.map Prod.fst).Nodup ∧
    (findFiles ⟨[], ["b"], [], []⟩
        [["a", "x.v"], ["a", "b", "y.sv"], ["a", "z.vh"],
          ["a", "files.lst"]]).skippedCount
      = ([["a", "x.v"], ["a", "b", "y.sv"], ["a", "z.vh"],
          ["a", "files.lst"]].filter (fun f =>
            recognized f &&
              (fileExclusion ⟨[], ["b"], [], []⟩ f).isSome)).length ∧
    (findFiles ⟨[], ["b"], [], []⟩
        [["a", "x.v"], ["a", "b", "y.sv"], ["a", "z.vh"],
          ["a", "files.lst"]]).totalFound
      = (findFiles ⟨[], ["b"], [], []⟩
          [["a", "x.v"], ["a", "b", "y.sv"], ["a", "z.vh"],
            ["a", "files.lst"]]).found.length := by
  have h := C4_discovery_shape ⟨[], ["b"], [], []⟩
    [["a", "x.v"], ["a", "b", "y.sv"], ["a", "z.vh"], ["a", "files.lst"]] (by decide)
  exact ⟨by decide, h.1, h.2.1, h.2.2.2.1, h.2.2.2.2.2.1, h.2.2.2.2.2.2⟩

/-- C6 counterexample: on an empty source tree the run returns success
with zero counters, but the report and the filelist are not produced at
all — run() returns before the generation steps, refuting the claim
that the manifest and report are still produced with header content. -/
theorem C6_empty_tree_counterexample :
    (runFull ⟨[], [], [], []⟩ (fun _ => ⟨ToolResult.otherExc, true, true⟩) []
        (some "encrypted.lst")).ok = true ∧
    (runFull ⟨[], [], [], []⟩ (fun _ => ⟨ToolResult.otherExc, true, true⟩) []
        (some "encrypted.lst")).stats = ⟨0, 0, 0, 0, 0⟩ ∧
    (runFull ⟨[], [], [], []⟩ (fun _ => ⟨ToolResult.otherExc, true, true⟩) []
        (some "encrypted.lst")).reportWritten = false ∧
    (runFull ⟨[], [], [], []⟩ (fun _ => ⟨ToolResult.otherExc, true, true⟩) []
        (some "encrypted.lst")).filelistWritten = false := by
  decide

/-- C6 (amended): when no tree file matches any recognized extension,
the run succeeds with process exit status zero and all five counters
zero, and neither the report nor the filelist is produced (run returns
early before the generation steps). -/
theorem C6_empty_tree_run (cfg : Config) (oracle : RelPath → FileOutcome)
    (tree : List RelPath) (fn : Option String)
    (hnone : ∀ f ∈ tree, recognized f = false) :
    (runFull cfg oracle tree fn).ok = true ∧
    exitStatus (runFull cfg oracle tree fn) = 0 ∧
    (runFull cfg oracle tree fn).stats = ⟨0, 0, 0, 0, 0⟩ ∧
    (runFull cfg oracle tree fn).reportWritten = false ∧
    (runFull cfg oracle tree fn).filelistWritten = false := by
  have hfil : ∀ e ∈ supportedExtensions, tree.filter (fun f => extMatches f e) = [] := by
    intro e he
    rw [List.filter_eq_nil_iff]
    intro f hf
    have h2 := hnone f hf
    unfold recognized at h2
    rw [List.any_eq_false] at h2
    exact h2 e he
  have hsurv : survivors cfg tree = [] := by
    unfold survivors
    rw [List.flatMap_eq_nil_iff]
    intro e he
    rw [hfil e he]
    rfl
  have hska : skipAll cfg tree = [] := by
    unfold skipAll
    rw [List.flatMap_eq_nil_iff]
    intro e he
    rw [hfil e he]
    rfl
  have hscan := discoverScan_eq cfg tree
  have hfound : (findFiles cfg tree).found = [] := by
    show List.insertionSort pLe (discoverScan cfg tree).1.dedup = []
    rw [hscan]
    simp [hsurv]
  have hskip : (findFiles cfg tree).skippedRecs = [] := by
    show (discoverScan cfg tree).2 = []
    rw [hscan]
    exact hska
  have htot : (findFiles cfg tree).totalFound = 0 := by
    show (findFiles cfg tree).found.length = 0
    rw [hfound]
    rfl
  have hskc : (findFiles cfg tree).skippedCount = 0 := by
    show (findFiles cfg tree).skippedRecs.length = 0
    rw [hskip]
    rfl
  simp only [runFull, exitStatus, initState]
  rw [hfound]
  simp [htot, hskc]

/-- C6 witness: a tree holding one unrecognized file runs to a quiet
success. -/
theorem C6_empty_tree_run_witness :
    (∀ f ∈ [(["readme.md"] : RelPath)], recognized f = false) ∧
    ((runFull ⟨[], [], [], []⟩ (fun _ => ⟨ToolResult.otherExc, true, true⟩)
        [["readme.md"]] none).ok = true ∧
      exitStatus (runFull ⟨[], [], [], []⟩ (fun _ => ⟨ToolResult.otherExc, true, true⟩)
        [["readme.md"]] none) = 0 ∧
      (runFull ⟨[], [], [], []⟩ (fun _ => ⟨ToolResult.otherExc, true, true⟩)
        [["readme.md"]] none).stats = ⟨0, 0, 0, 0, 0⟩ ∧
      (runFull ⟨[], [], [], []⟩ (fun _ => ⟨ToolResult.otherExc, true, true⟩)
        [["readme.md"]] none).reportWritten = false ∧
      (runFull ⟨[], [], [], []⟩ (fun _ => ⟨ToolResult.otherExc, true, true⟩)
        [["readme.md"]] none).filelistWritten = false) := by
  refine ⟨by decide, ?_⟩
  exact C6_empty_tree_run ⟨[], [], [], []⟩ (fun _ => ⟨ToolResult.otherExc, true, true⟩)
    [["readme.md"]] none (by decide)

end BatchEncrypt
